import Mathlib

/-!
# Verification of the Wordle solver (`src/wordle.py`)

Shallow embedding of the constraint-filtering engine (`WordleSolver._filter_words`
with its inner predicates `drop_blacks`, `pick_greens`, `pick_ambers`), the game
reset (`WordleSolver._start_game`) and one iteration of the play loop
(`WordleSolver.play_until_win`), together with proofs of the specification's
claims about them.

Words and feedback strings are modelled as `List Char`; the Python dictionary
`ambers` is modelled as an insertion-ordered association list; server responses
and the result of `random.shuffle` are explicit inputs to the loop step.
-/

namespace Wordle

/-- A word: in the script a Python string; here a list of characters. -/
abbrev Word := List Char

/-- `drop_blacks(blacks, word)` from `_filter_words`:
`all(b not in word for b in blacks)`. -/
def drop_blacks (blacks : List Char) (word : Word) : Bool :=
  blacks.all (fun b => !(word.contains b))

/-- `pick_greens(greens, word)` from `_filter_words`: returns `False` as soon
as some position `i < 5` has `greens[i] != " "` and `word[i] != greens[i]`. -/
def pick_greens (greens : List Char) (word : Word) : Bool :=
  (List.range 5).all (fun i =>
    greens.getD i ' ' == ' ' || word.getD i ' ' == greens.getD i ' ')

/-- `pick_ambers(ambers, word)` from `_filter_words`: every amber letter must
occur in the word, and must not sit at any of its recorded bad positions. -/
def pick_ambers (ambers : List (Char × List Nat)) (word : Word) : Bool :=
  ambers.all (fun p =>
    word.contains p.1 && p.2.all (fun pos => !(word.getD pos ' ' == p.1)))

/-- The accumulator built by the `for i in range(5)` loop of `_filter_words`:
`greens` (list of 5 chars, `' '` = unconstrained), `blacks` (string of
excluded letters), `ambers` (dict letter ↦ list of bad positions). -/
structure FilterCtx where
  greens : List Char
  blacks : List Char
  ambers : List (Char × List Nat)
deriving Repr, DecidableEq

/-- `ambers[guess_char].append(i)`, creating the entry first when the key is
absent (Python dict semantics, insertion ordered). -/
def addAmber (ambers : List (Char × List Nat)) (ch : Char) (i : Nat) :
    List (Char × List Nat) :=
  if ambers.any (fun p => p.1 == ch) then
    ambers.map (fun p => if p.1 == ch then (p.1, p.2 ++ [i]) else p)
  else
    ambers ++ [(ch, [i])]

/-- One iteration of the `for i in range(5)` loop of `_filter_words`:
reads `letter = feedback[i].lower()` and `guess_char = self.guess[i]` (both
inlined below) and updates the accumulator accordingly. -/
def buildStep (guess : Word) (feedback : List Char) (ctx : FilterCtx) (i : Nat) :
    FilterCtx :=
  if (feedback.getD i ' ').toLower == 'g' then
    { ctx with greens := ctx.greens.set i (guess.getD i ' ') }
  else if (feedback.getD i ' ').toLower == 'y' then
    { ctx with ambers := addAmber ctx.ambers (guess.getD i ' ') i }
  else if (feedback.getD i ' ').toLower == 'r' then
    { ctx with blacks := ctx.blacks ++ [guess.getD i ' '] }
  else ctx

/-- The whole constraint-building loop of `_filter_words`, starting from
`greens = [" "]*5`, `blacks = ""`, `ambers = {}`. -/
def buildCtx (guess : Word) (feedback : List Char) : FilterCtx :=
  (List.range 5).foldl (buildStep guess feedback)
    ⟨[' ', ' ', ' ', ' ', ' '], [], []⟩

/-- The survivor predicate of the final list comprehension of `_filter_words`. -/
def keepWord (ctx : FilterCtx) (word : Word) : Bool :=
  drop_blacks ctx.blacks word && pick_greens ctx.greens word &&
    pick_ambers ctx.ambers word

/-- `WordleSolver._filter_words`, as a pure function of the guess, the feedback
and the candidate pool: builds the constraints and keeps the consistent words. -/
def filter_words (guess : Word) (feedback : List Char) (pool : List Word) :
    List Word :=
  pool.filter (keepWord (buildCtx guess feedback))

/-- The mutable fields of `WordleSolver` (the `session` and `player_id`
collaborator handles carry no state the core reads). -/
structure SolverState where
  all_words : List Word
  available_words : List Word
  attempt_num : Nat
  status : String
  guess : Word
deriving Repr, DecidableEq

/-- `WordleSolver.__init__`: both word lists start as copies of the loaded
list, the attempt counter at 0, the status at `"PLAY"`, the guess empty. -/
def mkSolver (all_words : List Word) : SolverState :=
  { all_words := all_words
    available_words := all_words
    attempt_num := 0
    status := "PLAY"
    guess := [] }

/-- `WordleSolver._start_game`: the HTTP status code of the create call only
selects which message is printed; the state reset below happens in every case. -/
def start_game (s : SolverState) (statusCode : Nat) : SolverState :=
  { s with
    available_words := s.all_words
    attempt_num := 0
    status := "PLAY" }

/-- The body of the server's reply to a guess: either a JSON decode failure or
a parsed object with an optional `feedback` field and a `message` field
(the `'No message'` default is applied at this boundary). -/
inductive GuessResponse where
  | badJson
  | ok (feedback : Option (List Char)) (message : List Char)
deriving Repr, DecidableEq

/-- The nondeterministic inputs consumed by one iteration of the play loop:
the HTTP status of any `create` call made this iteration, the pool as
reordered by `random.shuffle`, and the reply to the submitted guess. -/
structure IterInput where
  createCode : Nat
  shuffled : List Word
  response : GuessResponse
deriving Repr, DecidableEq

/-- `message.lower()`. -/
def toLowerL (l : List Char) : List Char := l.map Char.toLower

/-- Whether `needle` is an initial segment of `hay`. -/
def startsWithL : List Char → List Char → Bool
  | [], _ => true
  | _ :: _, [] => false
  | a :: as, b :: bs => a == b && startsWithL as bs

/-- Python's `needle in hay` substring test. -/
def containsSub (needle : List Char) : List Char → Bool
  | [] => startsWithL needle []
  | b :: bs => startsWithL needle (b :: bs) || containsSub needle bs

/-- The server-forced-restart test of the loop:
`"exceeded" in message.lower() or "no game" in message.lower()`. -/
def hasRestartSignal (message : List Char) : Bool :=
  containsSub "exceeded".toList (toLowerL message) ||
    containsSub "no game".toList (toLowerL message)

/-- Outcome of one pass through the `while True` body: either the loop
continues with a new state, or `break` was reached with the final state. -/
inductive StepResult where
  | cont (s : SolverState)
  | won (s : SolverState)
deriving Repr, DecidableEq

/-- One iteration of the `while True` loop of `WordleSolver.play_until_win`,
in source order: pool-exhaustion restart; shuffle and `pop(0)` of the guess
with the attempt increment; JSON decode failure; server-forced restart;
invalid feedback; all-green win; otherwise filter. -/
def step (s : SolverState) (inp : IterInput) : StepResult :=
  if s.available_words.isEmpty then
    .cont (start_game s inp.createCode)
  else
    let s1 : SolverState :=
      { s with
        available_words := inp.shuffled.tail
        guess := inp.shuffled.headD []
        attempt_num := s.attempt_num + 1 }
    match inp.response with
    | .badJson => .cont s1
    | .ok fb? message =>
      if hasRestartSignal message then
        .cont (start_game s1 inp.createCode)
      else
        match fb? with
        | none => .cont s1
        | some fb =>
          if fb.isEmpty || fb.length != 5 then
            .cont s1
          else if fb.all (fun c => c.toLower == 'g') then
            .won { s1 with status := "WON" }
          else
            .cont { s1 with
              available_words :=
                filter_words s1.guess (toLowerL fb) s1.available_words }

/-- Runs the loop over a finite prefix of iteration inputs, stopping early
when `break` (the all-green win) is reached. -/
def run (s : SolverState) : List IterInput → SolverState
  | [] => s
  | inp :: inps =>
    match step s inp with
    | .won s' => s'
    | .cont s' => run s' inps

/-- Whether this iteration called `_start_game` (pool exhaustion at entry, or
a restart signal in the server's message): such an iteration starts a new
game rather than continuing the current one. -/
def stepRestarted (s : SolverState) (inp : IterInput) : Bool :=
  s.available_words.isEmpty ||
    (match inp.response with
     | .badJson => false
     | .ok _ msg => hasRestartSignal msg)

end Wordle

namespace Wordle

/-- C7 -- For every pool, guess, and 5-tag feedback, `filter_words` returns a
pool no larger than its input, and every surviving word already occurred in the
input pool: filtering never adds words. -/
theorem filter_words_shrinks (guess : Word) (feedback : List Char)
    (pool : List Word) (hfb : feedback.length = 5) :
    (filter_words guess feedback pool).length ≤ pool.length ∧
      ∀ w ∈ filter_words guess feedback pool, w ∈ pool := by
  refine ⟨List.length_filter_le _ _, fun w hw => ?_⟩
  exact (List.mem_filter.mp hw).1

/-- Witness for C7 at a concrete pool, guess and feedback. -/
theorem filter_words_shrinks_witness :
    (filter_words ['c','r','a','n','e'] ['g','y','r','r','r']
        [['c','a','b','l','e'], ['c','r','a','n','e']]).length ≤ 2 ∧
      ∀ w ∈ filter_words ['c','r','a','n','e'] ['g','y','r','r','r']
        [['c','a','b','l','e'], ['c','r','a','n','e']],
        w ∈ [['c','a','b','l','e'], ['c','r','a','n','e']] :=
  filter_words_shrinks ['c','r','a','n','e'] ['g','y','r','r','r']
    [['c','a','b','l','e'], ['c','r','a','n','e']] (by decide)

/-- C8 -- Filtering is idempotent: applying the same (guess, feedback) pair to
an already-filtered pool returns that pool unchanged. -/
theorem filter_words_idem (guess : Word) (feedback : List Char)
    (pool : List Word) (hfb : feedback.length = 5) :
    filter_words guess feedback (filter_words guess feedback pool) =
      filter_words guess feedback pool := by
  unfold filter_words
  rw [List.filter_filter]
  simp only [Bool.and_self]

/-- Witness for C8 at a concrete pool, guess and feedback. -/
theorem filter_words_idem_witness :
    filter_words ['c','r','a','n','e'] ['g','y','r','r','r']
        (filter_words ['c','r','a','n','e'] ['g','y','r','r','r']
          [['c','a','b','l','e'], ['s','l','a','n','t']]) =
      filter_words ['c','r','a','n','e'] ['g','y','r','r','r']
        [['c','a','b','l','e'], ['s','l','a','n','t']] :=
  filter_words_idem ['c','r','a','n','e'] ['g','y','r','r','r']
    [['c','a','b','l','e'], ['s','l','a','n','t']] (by decide)

/-- C3 -- After every call to `_start_game`, whatever status code the server
answered with, the candidate pool equals the full loaded word list (hence has
its size), the attempt counter is 0, and the state is Playing (`"PLAY"`). -/
theorem start_game_resets (s : SolverState) (statusCode : Nat) :
    (start_game s statusCode).available_words = s.all_words ∧
      (start_game s statusCode).available_words.length = s.all_words.length ∧
      (start_game s statusCode).attempt_num = 0 ∧
      (start_game s statusCode).status = "PLAY" :=
  ⟨rfl, rfl, rfl, rfl⟩

/-- C6 -- When the candidate pool is empty at the start of a loop iteration,
the iteration performs the `_start_game` reset and continues (`StepResult.cont`,
never a thrown exception and never termination of the session), with the pool
restored to the full word list, the counter at 0 and the state Playing. -/
theorem step_pool_exhaustion (s : SolverState) (inp : IterInput)
    (h : s.available_words = []) :
    step s inp =
      StepResult.cont
        { s with
          available_words := s.all_words
          attempt_num := 0
          status := "PLAY" } := by
  unfold step
  rw [h]
  rfl

/-- Witness for C6: a concrete exhausted state restarts with the full list. -/
theorem step_pool_exhaustion_witness :
    step
        { all_words := [['c','r','a','n','e']]
          available_words := []
          attempt_num := 7
          status := "PLAY"
          guess := ['c','r','a','n','e'] }
        { createCode := 500
          shuffled := []
          response := GuessResponse.badJson } =
      StepResult.cont
        { all_words := [['c','r','a','n','e']]
          available_words := [['c','r','a','n','e']]
          attempt_num := 0
          status := "PLAY"
          guess := ['c','r','a','n','e'] } :=
  step_pool_exhaustion
    { all_words := [['c','r','a','n','e']]
      available_words := []
      attempt_num := 7
      status := "PLAY"
      guess := ['c','r','a','n','e'] }
    { createCode := 500
      shuffled := []
      response := GuessResponse.badJson }
    rfl

/-- C2 -- In an iteration that submits a guess and receives a feedback of
exactly 5 tags, all `'g'` up to case, the loop breaks with status `"WON"`; the
win is terminal: whatever iteration inputs would follow, `run` returns this
final state and issues no further guess. -/
theorem step_all_green_wins (s : SolverState) (inp : IterInput)
    (fb msg : List Char)
    (hne : s.available_words ≠ [])
    (hresp : inp.response = GuessResponse.ok (some fb) msg)
    (hsig : hasRestartSignal msg = false)
    (hlen : fb.length = 5)
    (hall : ∀ c ∈ fb, c.toLower = 'g') :
    step s inp =
        StepResult.won
          { s with
            available_words := inp.shuffled.tail
            guess := inp.shuffled.headD []
            attempt_num := s.attempt_num + 1
            status := "WON" } ∧
      (SolverState.status
          { s with
            available_words := inp.shuffled.tail
            guess := inp.shuffled.headD []
            attempt_num := s.attempt_num + 1
            status := "WON" }) = "WON" ∧
      ∀ inps, run s (inp :: inps) =
        { s with
          available_words := inp.shuffled.tail
          guess := inp.shuffled.headD []
          attempt_num := s.attempt_num + 1
          status := "WON" } := by
  have hEmpty : s.available_words.isEmpty = false := by
    cases hA : s.available_words with
    | nil => exact absurd hA hne
    | cons a l => rfl
  have hfbne : fb.isEmpty = false := by
    cases fb with
    | nil => simp at hlen
    | cons a l => rfl
  have hlen5 : (fb.length != 5) = false := by rw [hlen]; rfl
  have hallg : fb.all (fun c => c.toLower == 'g') = true := by
    rw [List.all_eq_true]
    intro c hc
    rw [hall c hc]
    rfl
  have hstep : step s inp =
      StepResult.won
        { s with
          available_words := inp.shuffled.tail
          guess := inp.shuffled.headD []
          attempt_num := s.attempt_num + 1
          status := "WON" } := by
    simp only [step, hEmpty, hresp, hsig, hfbne, hlen5, hallg, Bool.false_eq_true,
      if_false, Bool.or_self, if_true]
  refine ⟨hstep, rfl, fun inps => ?_⟩
  simp only [run, hstep]

/-- Witness for C2: a concrete all-green feedback wins, and a further queued
iteration input is never consumed. -/
theorem step_all_green_wins_witness :
    step
        { all_words := [['c','r','a','n','e'], ['s','l','a','n','t']]
          available_words := [['c','r','a','n','e'], ['s','l','a','n','t']]
          attempt_num := 0
          status := "PLAY"
          guess := [] }
        { createCode := 200
          shuffled := [['s','l','a','n','t'], ['c','r','a','n','e']]
          response := GuessResponse.ok (some ['g','G','g','g','g']) [] } =
      StepResult.won
        { all_words := [['c','r','a','n','e'], ['s','l','a','n','t']]
          available_words := [['c','r','a','n','e']]
          attempt_num := 1
          status := "WON"
          guess := ['s','l','a','n','t'] } ∧
    run
        { all_words := [['c','r','a','n','e'], ['s','l','a','n','t']]
          available_words := [['c','r','a','n','e'], ['s','l','a','n','t']]
          attempt_num := 0
          status := "PLAY"
          guess := [] }
        [{ createCode := 200
           shuffled := [['s','l','a','n','t'], ['c','r','a','n','e']]
           response := GuessResponse.ok (some ['g','G','g','g','g']) [] },
         { createCode := 200
           shuffled := [['c','r','a','n','e']]
           response := GuessResponse.ok (some ['r','r','r','r','r']) [] }] =
      { all_words := [['c','r','a','n','e'], ['s','l','a','n','t']]
        available_words := [['c','r','a','n','e']]
        attempt_num := 1
        status := "WON"
        guess := ['s','l','a','n','t'] } := by
  have h := step_all_green_wins
    { all_words := [['c','r','a','n','e'], ['s','l','a','n','t']]
      available_words := [['c','r','a','n','e'], ['s','l','a','n','t']]
      attempt_num := 0
      status := "PLAY"
      guess := [] }
    { createCode := 200
      shuffled := [['s','l','a','n','t'], ['c','r','a','n','e']]
      response := GuessResponse.ok (some ['g','G','g','g','g']) [] }
    ['g','G','g','g','g'] [] (by decide) rfl (by decide) (by decide) (by decide)
  exact ⟨h.1,
    h.2.2 [⟨200, [['c','r','a','n','e']],
      GuessResponse.ok (some ['r','r','r','r','r']) []⟩]⟩

/-- Any iteration that continues the current game (no `_start_game` call)
leaves the pool a sub-collection of the shuffled pool minus the popped guess:
every word of the new pool occurs in `inp.shuffled.tail`. -/
theorem step_cont_pool_subset (s : SolverState) (inp : IterInput)
    (s' : SolverState)
    (hnr : stepRestarted s inp = false)
    (hstep : step s inp = StepResult.cont s') :
    ∀ x ∈ s'.available_words, x ∈ inp.shuffled.tail := by
  have hne : s.available_words.isEmpty = false := by
    unfold stepRestarted at hnr
    exact (Bool.or_eq_false_iff.mp hnr).1
  intro x hx
  unfold step at hstep
  rw [hne] at hstep
  simp only [Bool.false_eq_true, if_false] at hstep
  cases hresp : inp.response with
  | badJson =>
    rw [hresp] at hstep
    simp only [StepResult.cont.injEq] at hstep
    rw [← hstep] at hx
    exact hx
  | ok fb? msg =>
    have hsig : hasRestartSignal msg = false := by
      unfold stepRestarted at hnr
      rw [hresp] at hnr
      exact (Bool.or_eq_false_iff.mp hnr).2
    rw [hresp] at hstep
    simp only [hsig, Bool.false_eq_true, if_false] at hstep
    cases fb? with
    | none =>
      simp only [StepResult.cont.injEq] at hstep
      rw [← hstep] at hx
      exact hx
    | some fb =>
      by_cases hinv : (fb.isEmpty || fb.length != 5) = true
      · simp only [hinv, if_true, StepResult.cont.injEq] at hstep
        rw [← hstep] at hx
        exact hx
      · simp only [hinv, if_false, Bool.false_eq_true] at hstep
        by_cases hwin : fb.all (fun c => c.toLower == 'g') = true
        · simp only [hwin, if_true] at hstep
          exact absurd hstep (by simp)
        · simp only [hwin, if_false, Bool.false_eq_true,
            StepResult.cont.injEq] at hstep
          rw [← hstep] at hx
          exact (List.mem_filter.mp hx).1

/-- C4 -- Within a single game: (1) at selection time the guessed word is
removed from the pool and, for a duplicate-free pool, it is absent from the
pool of every continuing outcome of that iteration, before the feedback is
even examined; (2) no operation of an iteration that stays in the same game
(no `_start_game` call) re-adds any word: a word absent from the pool stays
absent after the step. -/
theorem guess_never_reoffered :
    (∀ (s : SolverState) (inp : IterInput) (s' : SolverState),
      s.available_words ≠ [] →
      inp.shuffled.Perm s.available_words →
      s.available_words.Nodup →
      stepRestarted s inp = false →
      step s inp = StepResult.cont s' →
      inp.shuffled.headD [] ∉ s'.available_words) ∧
    (∀ (s : SolverState) (inp : IterInput) (s' : SolverState) (w : Word),
      inp.shuffled.Perm s.available_words →
      stepRestarted s inp = false →
      step s inp = StepResult.cont s' →
      w ∉ s.available_words →
      w ∉ s'.available_words) := by
  constructor
  · intro s inp s' hne hperm hnd hnr hstep hmem
    have hx := step_cont_pool_subset s inp s' hnr hstep _ hmem
    have hshnd : inp.shuffled.Nodup := (hperm.symm.nodup hnd)
    have hshne : inp.shuffled ≠ [] := by
      intro hnil
      exact hne (List.Perm.nil_eq (hnil ▸ hperm)).symm
    cases hsh : inp.shuffled with
    | nil => exact hshne hsh
    | cons g t =>
      rw [hsh] at hx hshnd
      simp only [hsh, List.headD_cons, List.tail_cons] at hmem hx
      exact (List.nodup_cons.mp hshnd).1 hx
  · intro s inp s' w hperm hnr hstep habs hmem
    have hx := step_cont_pool_subset s inp s' hnr hstep _ hmem
    exact habs (hperm.subset (List.mem_of_mem_tail hx))

/-- Witness for C4: concrete instances of both conjuncts, at an iteration with
invalid (`none`) feedback so the duplicate-risk path is exercised. -/
theorem guess_never_reoffered_witness :
    (['s','l','a','n','t'] : Word) ∉
        [(['c','r','a','n','e'] : Word)] ∧
      (['p','l','u','m','b'] : Word) ∉
        [(['c','r','a','n','e'] : Word)] := by
  have hstep : step
      { all_words := [['c','r','a','n','e'], ['s','l','a','n','t']]
        available_words := [['c','r','a','n','e'], ['s','l','a','n','t']]
        attempt_num := 0
        status := "PLAY"
        guess := [] }
      { createCode := 200
        shuffled := [['s','l','a','n','t'], ['c','r','a','n','e']]
        response := GuessResponse.ok none ['h','i'] } =
      StepResult.cont
        { all_words := [['c','r','a','n','e'], ['s','l','a','n','t']]
          available_words := [['c','r','a','n','e']]
          attempt_num := 1
          status := "PLAY"
          guess := ['s','l','a','n','t'] } := by decide
  refine ⟨guess_never_reoffered.1
      { all_words := [['c','r','a','n','e'], ['s','l','a','n','t']]
        available_words := [['c','r','a','n','e'], ['s','l','a','n','t']]
        attempt_num := 0
        status := "PLAY"
        guess := [] }
      { createCode := 200
        shuffled := [['s','l','a','n','t'], ['c','r','a','n','e']]
        response := GuessResponse.ok none ['h','i'] }
      _ (by decide) (by decide) (by decide) (by decide) hstep,
    guess_never_reoffered.2
      { all_words := [['c','r','a','n','e'], ['s','l','a','n','t']]
        available_words := [['c','r','a','n','e'], ['s','l','a','n','t']]
        attempt_num := 0
        status := "PLAY"
        guess := [] }
      { createCode := 200
        shuffled := [['s','l','a','n','t'], ['c','r','a','n','e']]
        response := GuessResponse.ok none ['h','i'] }
      _ ['p','l','u','m','b'] (by decide) (by decide) hstep (by decide)⟩

/-- C5 -- In an iteration that submits a guess but gets a missing feedback
field or one whose length differs from 5, no filtering happens and no
constraint is learned: the iteration continues (`StepResult.cont`, no
exception) with the pool exactly as left by the guess selection (the consumed
guess is not re-added) and the status unchanged. -/
theorem step_invalid_feedback (s : SolverState) (inp : IterInput)
    (fb? : Option (List Char)) (msg : List Char)
    (hne : s.available_words ≠ [])
    (hresp : inp.response = GuessResponse.ok fb? msg)
    (hsig : hasRestartSignal msg = false)
    (hbad : fb? = none ∨ ∃ fb, fb? = some fb ∧ fb.length ≠ 5) :
    step s inp =
      StepResult.cont
        { s with
          available_words := inp.shuffled.tail
          guess := inp.shuffled.headD []
          attempt_num := s.attempt_num + 1 } := by
  have hEmpty : s.available_words.isEmpty = false := by
    cases hA : s.available_words with
    | nil => exact absurd hA hne
    | cons a l => rfl
  rcases hbad with hnone | ⟨fb, hsome, hfb⟩
  · rw [hnone] at hresp
    simp only [step, hEmpty, hresp, hsig, Bool.false_eq_true, if_false]
  · rw [hsome] at hresp
    have hinv : (fb.isEmpty || fb.length != 5) = true := by
      simp only [Bool.or_eq_true, bne_iff_ne, ne_eq]
      exact Or.inr hfb
    simp only [step, hEmpty, hresp, hsig, hinv, Bool.false_eq_true, if_false,
      if_true]

/-- Witness for C5: a concrete 4-tag feedback leaves the popped pool as is. -/
theorem step_invalid_feedback_witness :
    step
        { all_words := [['c','r','a','n','e'], ['s','l','a','n','t']]
          available_words := [['c','r','a','n','e'], ['s','l','a','n','t']]
          attempt_num := 3
          status := "PLAY"
          guess := [] }
        { createCode := 200
          shuffled := [['s','l','a','n','t'], ['c','r','a','n','e']]
          response := GuessResponse.ok (some ['g','g','g','g']) [] } =
      StepResult.cont
        { all_words := [['c','r','a','n','e'], ['s','l','a','n','t']]
          available_words := [['c','r','a','n','e']]
          attempt_num := 4
          status := "PLAY"
          guess := ['s','l','a','n','t'] } :=
  step_invalid_feedback
    { all_words := [['c','r','a','n','e'], ['s','l','a','n','t']]
      available_words := [['c','r','a','n','e'], ['s','l','a','n','t']]
      attempt_num := 3
      status := "PLAY"
      guess := [] }
    { createCode := 200
      shuffled := [['s','l','a','n','t'], ['c','r','a','n','e']]
      response := GuessResponse.ok (some ['g','g','g','g']) [] }
    (some ['g','g','g','g']) [] (by decide) rfl (by decide)
    (Or.inr ⟨['g','g','g','g'], rfl, by decide⟩)

/-- A build step never changes the number of green slots. -/
theorem buildStep_greens_length {g fb : List Char} {ctx : FilterCtx} {i : Nat} :
    (buildStep g fb ctx i).greens.length = ctx.greens.length := by
  unfold buildStep
  split
  · simp
  · split
    · rfl
    · split <;> rfl

/-- A build step at position `i` leaves every other green slot alone. -/
theorem buildStep_greens_getD_ne {g fb : List Char} {ctx : FilterCtx}
    {i j : Nat} {d : Char} (hij : i ≠ j) :
    (buildStep g fb ctx i).greens.getD j d = ctx.greens.getD j d := by
  unfold buildStep
  split
  · simp only [List.getD_eq_getElem?_getD, List.getElem?_set_ne hij]
  · split
    · rfl
    · split <;> rfl

/-- A build step at a Green position records the guessed letter there. -/
theorem buildStep_greens_getD_self {g fb : List Char} {ctx : FilterCtx} {i : Nat}
    (hlen : i < ctx.greens.length)
    (hg : (fb.getD i ' ').toLower = 'g') :
    (buildStep g fb ctx i).greens.getD i ' ' = g.getD i ' ' := by
  unfold buildStep
  rw [hg]
  show (ctx.greens.set i (g.getD i ' ')).getD i ' ' = g.getD i ' '
  rw [List.getD_eq_getElem?_getD, List.getElem?_set_self hlen, Option.getD_some]

/-- Once a green slot holds the guessed letter, the rest of the constraint
loop keeps it there. -/
theorem foldl_greens_keeps {g fb : List Char} {j : Nat} :
    ∀ (l : List Nat) (ctx : FilterCtx), j < ctx.greens.length →
      (fb.getD j ' ').toLower = 'g' →
      ctx.greens.getD j ' ' = g.getD j ' ' →
      (l.foldl (buildStep g fb) ctx).greens.getD j ' ' = g.getD j ' ' := by
  intro l
  induction l with
  | nil => intro ctx _ _ h; exact h
  | cons a t ih =>
    intro ctx hlen hg h
    rw [List.foldl_cons]
    by_cases haj : a = j
    · subst haj
      refine ih _ ?_ hg (buildStep_greens_getD_self hlen hg)
      rw [buildStep_greens_length]; exact hlen
    · refine ih _ ?_ hg ?_
      · rw [buildStep_greens_length]; exact hlen
      · rw [buildStep_greens_getD_ne haj]; exact h

/-- Processing a Green position anywhere in the loop pins that green slot to
the guessed letter in the final accumulator. -/
theorem foldl_greens_of_g {g fb : List Char} {j : Nat} :
    ∀ (l : List Nat) (ctx : FilterCtx), j < ctx.greens.length → j ∈ l →
      (fb.getD j ' ').toLower = 'g' →
      (l.foldl (buildStep g fb) ctx).greens.getD j ' ' = g.getD j ' ' := by
  intro l
  induction l with
  | nil => intro ctx _ h; exact absurd h (List.not_mem_nil j)
  | cons a t ih =>
    intro ctx hlen hmem hg
    rw [List.foldl_cons]
    by_cases haj : a = j
    · subst haj
      refine foldl_greens_keeps t _ ?_ hg (buildStep_greens_getD_self hlen hg)
      rw [buildStep_greens_length]; exact hlen
    · rcases List.mem_cons.mp hmem with h | h
      · exact absurd h.symm haj
      · refine ih _ ?_ h hg
        rw [buildStep_greens_length]; exact hlen

/-- The constraint loop records `guess[j]` as the green letter of every
position `j` tagged Green. -/
theorem buildCtx_greens_of_g {g fb : List Char} {j : Nat} (hj : j < 5)
    (hg : (fb.getD j ' ').toLower = 'g') :
    (buildCtx g fb).greens.getD j ' ' = g.getD j ' ' := by
  unfold buildCtx
  exact foldl_greens_of_g _ _ (by simpa using hj) (List.mem_range.mpr hj) hg

/-- A build step only ever appends to the black-letter string. -/
theorem buildStep_blacks_mono {g fb : List Char} {ctx : FilterCtx} {i : Nat}
    {ch : Char} (h : ch ∈ ctx.blacks) :
    ch ∈ (buildStep g fb ctx i).blacks := by
  unfold buildStep
  split
  · exact h
  · split
    · exact h
    · split
      · exact List.mem_append_left _ h
      · exact h

/-- A build step at a Red position appends the guessed letter to the blacks. -/
theorem buildStep_blacks_self {g fb : List Char} {ctx : FilterCtx} {i : Nat}
    (hr : (fb.getD i ' ').toLower = 'r') :
    g.getD i ' ' ∈ (buildStep g fb ctx i).blacks := by
  unfold buildStep
  rw [hr]
  show g.getD i ' ' ∈ ctx.blacks ++ [g.getD i ' ']
  exact List.mem_append_right _ (List.mem_singleton_self _)

/-- Letters already in the blacks survive the rest of the constraint loop. -/
theorem foldl_blacks_mono {g fb : List Char} {ch : Char} :
    ∀ (l : List Nat) (ctx : FilterCtx), ch ∈ ctx.blacks →
      ch ∈ (l.foldl (buildStep g fb) ctx).blacks := by
  intro l
  induction l with
  | nil => intro ctx h; exact h
  | cons a t ih =>
    intro ctx h
    rw [List.foldl_cons]
    exact ih _ (buildStep_blacks_mono h)

/-- Processing a Red position anywhere in the loop puts the guessed letter in
the final black-letter string. -/
theorem foldl_blacks_of_r {g fb : List Char} {j : Nat} :
    ∀ (l : List Nat) (ctx : FilterCtx), j ∈ l →
      (fb.getD j ' ').toLower = 'r' →
      g.getD j ' ' ∈ (l.foldl (buildStep g fb) ctx).blacks := by
  intro l
  induction l with
  | nil => intro ctx h; exact absurd h (List.not_mem_nil j)
  | cons a t ih =>
    intro ctx hmem hr
    rw [List.foldl_cons]
    by_cases haj : a = j
    · subst haj
      exact foldl_blacks_mono t _ (buildStep_blacks_self hr)
    · rcases List.mem_cons.mp hmem with h | h
      · exact absurd h.symm haj
      · exact ih _ h hr

/-- The constraint loop blacklists `guess[j]` for every position `j` tagged
Red. -/
theorem buildCtx_blacks_of_r {g fb : List Char} {j : Nat} (hj : j < 5)
    (hr : (fb.getD j ' ').toLower = 'r') :
    g.getD j ' ' ∈ (buildCtx g fb).blacks := by
  unfold buildCtx
  exact foldl_blacks_of_r _ _ (List.mem_range.mpr hj) hr

/-- `ambers[ch].append(i)` leaves every recorded bad position in place. -/
theorem addAmber_mem_mono {ambers : List (Char × List Nat)} {ch ch' : Char}
    {p j : Nat} (h : ∃ bad, (ch, bad) ∈ ambers ∧ p ∈ bad) :
    ∃ bad, (ch, bad) ∈ addAmber ambers ch' j ∧ p ∈ bad := by
  obtain ⟨bad, hin, hp⟩ := h
  unfold addAmber
  split
  · by_cases hc : ch = ch'
    · refine ⟨bad ++ [j], ?_, List.mem_append_left _ hp⟩
      have himg : ((ch, bad ++ [j]) : Char × List Nat) =
          (fun q : Char × List Nat =>
            if q.1 == ch' then (q.1, q.2 ++ [j]) else q) (ch, bad) := by
        simp [hc]
      rw [himg]
      exact List.mem_map_of_mem _ hin
    · refine ⟨bad, ?_, hp⟩
      have himg : ((ch, bad) : Char × List Nat) =
          (fun q : Char × List Nat =>
            if q.1 == ch' then (q.1, q.2 ++ [j]) else q) (ch, bad) := by
        simp [hc]
      rw [himg]
      exact List.mem_map_of_mem _ hin
  · exact ⟨bad, List.mem_append_left _ hin, hp⟩

/-- `ambers[ch].append(i)` records `i` as a bad position of `ch`. -/
theorem addAmber_mem_self {ambers : List (Char × List Nat)} {ch : Char}
    {i : Nat} :
    ∃ bad, (ch, bad) ∈ addAmber ambers ch i ∧ i ∈ bad := by
  unfold addAmber
  split
  · next h =>
    obtain ⟨q, hq, hqch⟩ := List.any_eq_true.mp h
    have hqeq : q.1 = ch := by simpa using hqch
    refine ⟨q.2 ++ [i], ?_, List.mem_append_right _ (List.mem_singleton_self _)⟩
    have himg : ((ch, q.2 ++ [i]) : Char × List Nat) =
        (fun r : Char × List Nat =>
          if r.1 == ch then (r.1, r.2 ++ [i]) else r) q := by
      simp [hqeq]
    rw [himg]
    exact List.mem_map_of_mem _ hq
  · exact ⟨[i], List.mem_append_right _ (List.mem_singleton_self _),
      List.mem_singleton_self _⟩

/-- A build step preserves every recorded amber bad position. -/
theorem buildStep_ambers_mono {g fb : List Char} {ctx : FilterCtx} {i : Nat}
    {ch : Char} {p : Nat} (h : ∃ bad, (ch, bad) ∈ ctx.ambers ∧ p ∈ bad) :
    ∃ bad, (ch, bad) ∈ (buildStep g fb ctx i).ambers ∧ p ∈ bad := by
  unfold buildStep
  split
  · exact h
  · split
    · exact addAmber_mem_mono h
    · split
      · exact h
      · exact h

/-- A build step at a Yellow position records it as a bad position of the
guessed letter. -/
theorem buildStep_ambers_self {g fb : List Char} {ctx : FilterCtx} {i : Nat}
    (hy : (fb.getD i ' ').toLower = 'y') :
    ∃ bad, (g.getD i ' ', bad) ∈ (buildStep g fb ctx i).ambers ∧ i ∈ bad := by
  unfold buildStep
  rw [hy]
  show ∃ bad, (g.getD i ' ', bad) ∈ addAmber ctx.ambers (g.getD i ' ') i ∧ i ∈ bad
  exact addAmber_mem_self

/-- Recorded amber bad positions survive the rest of the constraint loop. -/
theorem foldl_ambers_mono {g fb : List Char} {ch : Char} {p : Nat} :
    ∀ (l : List Nat) (ctx : FilterCtx),
      (∃ bad, (ch, bad) ∈ ctx.ambers ∧ p ∈ bad) →
      ∃ bad, (ch, bad) ∈ (l.foldl (buildStep g fb) ctx).ambers ∧ p ∈ bad := by
  intro l
  induction l with
  | nil => intro ctx h; exact h
  | cons a t ih =>
    intro ctx h
    rw [List.foldl_cons]
    exact ih _ (buildStep_ambers_mono h)

/-- Processing a Yellow position anywhere in the loop records it as a bad
position of the guessed letter in the final accumulator. -/
theorem foldl_ambers_of_y {g fb : List Char} {j : Nat} :
    ∀ (l : List Nat) (ctx : FilterCtx), j ∈ l →
      (fb.getD j ' ').toLower = 'y' →
      ∃ bad, (g.getD j ' ', bad) ∈ (l.foldl (buildStep g fb) ctx).ambers ∧
        j ∈ bad := by
  intro l
  induction l with
  | nil => intro ctx h; exact absurd h (List.not_mem_nil j)
  | cons a t ih =>
    intro ctx hmem hy
    rw [List.foldl_cons]
    by_cases haj : a = j
    · subst haj
      exact foldl_ambers_mono t _ (buildStep_ambers_self hy)
    · rcases List.mem_cons.mp hmem with h | h
      · exact absurd h.symm haj
      · exact ih _ h hy

/-- The constraint loop records position `j` as a bad position of `guess[j]`
for every position `j` tagged Yellow. -/
theorem buildCtx_ambers_of_y {g fb : List Char} {j : Nat} (hj : j < 5)
    (hy : (fb.getD j ' ').toLower = 'y') :
    ∃ bad, (g.getD j ' ', bad) ∈ (buildCtx g fb).ambers ∧ j ∈ bad := by
  unfold buildCtx
  exact foldl_ambers_of_y _ _ (List.mem_range.mpr hj) hy

/-- A surviving word passes all three predicates of the list comprehension. -/
theorem keep_of_mem_filter {g fb : List Char} {pool : List Word} {w : Word}
    (hw : w ∈ filter_words g fb pool) :
    drop_blacks (buildCtx g fb).blacks w = true ∧
      pick_greens (buildCtx g fb).greens w = true ∧
      pick_ambers (buildCtx g fb).ambers w = true := by
  have hk := (List.mem_filter.mp hw).2
  unfold keepWord at hk
  rw [Bool.and_eq_true, Bool.and_eq_true] at hk
  exact ⟨hk.1.1, hk.1.2, hk.2⟩

/-- A surviving word carries the guessed letter at every Green position. -/
theorem mem_filter_green {g fb : List Char} {pool : List Word} {w : Word}
    {j : Nat} (hg5 : g.length = 5) (hsp : ' ' ∉ g)
    (hw : w ∈ filter_words g fb pool) (hj : j < 5)
    (hfg : (fb.getD j ' ').toLower = 'g') :
    w.getD j ' ' = g.getD j ' ' := by
  have hpg := (keep_of_mem_filter hw).2.1
  unfold pick_greens at hpg
  rw [List.all_eq_true] at hpg
  have h := hpg j (List.mem_range.mpr hj)
  simp only [buildCtx_greens_of_g hj hfg] at h
  have hne : g.getD j ' ' ≠ ' ' := by
    have hlt : j < g.length := by omega
    rw [List.getD_eq_getElem _ _ hlt]
    intro hc
    exact hsp (hc ▸ List.getElem_mem hlt)
  rw [Bool.or_eq_true] at h
  rcases h with h1 | h2
  · exact absurd (beq_iff_eq.mp h1) hne
  · exact beq_iff_eq.mp h2

/-- A surviving word avoids the guessed letter of every Red position. -/
theorem mem_filter_red {g fb : List Char} {pool : List Word} {w : Word}
    {j : Nat} (hw : w ∈ filter_words g fb pool) (hj : j < 5)
    (hfr : (fb.getD j ' ').toLower = 'r') :
    g.getD j ' ' ∉ w := by
  have hdb := (keep_of_mem_filter hw).1
  unfold drop_blacks at hdb
  rw [List.all_eq_true] at hdb
  have h := hdb _ (buildCtx_blacks_of_r hj hfr)
  simpa using h

/-- A surviving word contains the guessed letter of every Yellow position,
but not at that position. -/
theorem mem_filter_yellow {g fb : List Char} {pool : List Word} {w : Word}
    {j : Nat} (hw : w ∈ filter_words g fb pool) (hj : j < 5)
    (hfy : (fb.getD j ' ').toLower = 'y') :
    g.getD j ' ' ∈ w ∧ w.getD j ' ' ≠ g.getD j ' ' := by
  obtain ⟨bad, hin, hjb⟩ := buildCtx_ambers_of_y hj hfy
  have hpa := (keep_of_mem_filter hw).2.2
  unfold pick_ambers at hpa
  rw [List.all_eq_true] at hpa
  have h := hpa _ hin
  rw [Bool.and_eq_true] at h
  obtain ⟨hc, hb⟩ := h
  constructor
  · simpa using hc
  · rw [List.all_eq_true] at hb
    have h2 := hb j hjb
    simpa using h2

/-- C1 -- Every word surviving `_filter_words` with a 5-letter guess and a
5-tag feedback satisfies, at each position `i`, the constraint the feedback
encodes there: Green forces `w[i] = guess[i]`; Yellow forces the guessed
letter to appear in `w` but not at `i`; Red forces the guessed letter to
appear nowhere in `w`. -/
theorem filter_words_sound (guess fb : List Char) (pool : List Word) (w : Word)
    (hg5 : guess.length = 5) (hsp : ' ' ∉ guess) (hfb : fb.length = 5)
    (hw : w ∈ filter_words guess fb pool) (i : Nat) (hi : i < 5) :
    ((fb.getD i ' ').toLower = 'g' → w.getD i ' ' = guess.getD i ' ') ∧
      ((fb.getD i ' ').toLower = 'y' →
        guess.getD i ' ' ∈ w ∧ w.getD i ' ' ≠ guess.getD i ' ') ∧
      ((fb.getD i ' ').toLower = 'r' → guess.getD i ' ' ∉ w) :=
  ⟨fun h => mem_filter_green hg5 hsp hw hi h,
   fun h => mem_filter_yellow hw hi h,
   fun h => mem_filter_red hw hi h⟩

/-- Witness for C1: the spec's own scenario (guess `crane`, feedback `rrggr`),
with the survivor `slant` checked at the Green position 2. -/
theorem filter_words_sound_witness :
    (((['r','r','g','g','r'] : List Char).getD 2 ' ').toLower = 'g' →
        (['s','l','a','n','t'] : Word).getD 2 ' ' =
          (['c','r','a','n','e'] : Word).getD 2 ' ') ∧
      (((['r','r','g','g','r'] : List Char).getD 2 ' ').toLower = 'y' →
        (['c','r','a','n','e'] : Word).getD 2 ' ' ∈ (['s','l','a','n','t'] : Word) ∧
          (['s','l','a','n','t'] : Word).getD 2 ' ' ≠
            (['c','r','a','n','e'] : Word).getD 2 ' ') ∧
      (((['r','r','g','g','r'] : List Char).getD 2 ' ').toLower = 'r' →
        (['c','r','a','n','e'] : Word).getD 2 ' ' ∉ (['s','l','a','n','t'] : Word)) :=
  filter_words_sound ['c','r','a','n','e'] ['r','r','g','g','r']
    [['s','l','a','n','t']] ['s','l','a','n','t']
    (by decide) (by decide) (by decide) (by decide) 2 (by decide)

/-- C10 -- When the guess repeats a letter, one occurrence tagged Green or
Yellow and another tagged Red, the filtered pool is empty: the Green/Yellow
rule requires the letter in every survivor while the Red rule bans it. -/
theorem filter_words_conflict (guess fb : List Char) (pool : List Word)
    (i j : Nat) (hi : i < 5) (hj : j < 5) (hij : i ≠ j)
    (hg5 : guess.length = 5) (hsp : ' ' ∉ guess)
    (heq : guess.getD i ' ' = guess.getD j ' ')
    (hgy : (fb.getD i ' ').toLower = 'g' ∨ (fb.getD i ' ').toLower = 'y')
    (hr : (fb.getD j ' ').toLower = 'r') :
    filter_words guess fb pool = [] := by
  rw [List.eq_nil_iff_forall_not_mem]
  intro w hw
  have hred := mem_filter_red hw hj hr
  rw [← heq] at hred
  rcases hgy with hg | hy
  · have h1 := mem_filter_green hg5 hsp hw hi hg
    have hne : guess.getD i ' ' ≠ ' ' := by
      have hlt : i < guess.length := by omega
      rw [List.getD_eq_getElem _ _ hlt]
      intro hc
      exact hsp (hc ▸ List.getElem_mem hlt)
    have hlt : i < w.length := by
      by_contra hge
      push_neg at hge
      rw [List.getD_eq_default _ _ hge] at h1
      exact hne h1.symm
    rw [List.getD_eq_getElem _ _ hlt] at h1
    exact hred (h1 ▸ List.getElem_mem hlt)
  · exact hred (mem_filter_yellow hw hi hy).1

/-- Witness for C10: guess `aaxyz` with `'a'` Yellow at 0 and Red at 1
empties a nonempty pool. -/
theorem filter_words_conflict_witness :
    filter_words ['a','a','x','y','z'] ['y','r','r','r','r']
        [['a','b','c','d','e'], ['b','c','d','e','f']] = [] :=
  filter_words_conflict ['a','a','x','y','z'] ['y','r','r','r','r']
    [['a','b','c','d','e'], ['b','c','d','e','f']] 0 1
    (by decide) (by decide) (by decide) (by decide) (by decide) (by decide)
    (Or.inr (by decide)) (by decide)

/-- Equal lowerings of two feedback strings give equal per-position lowered
tags (with the `' '` out-of-range default on both sides). -/
theorem toLower_getD_congr :
    ∀ (l l' : List Char), toLowerL l = toLowerL l' →
      ∀ i, (l.getD i ' ').toLower = (l'.getD i ' ').toLower := by
  intro l
  induction l with
  | nil =>
    intro l' h i
    unfold toLowerL at h
    cases l' with
    | nil => rfl
    | cons b bs => simp at h
  | cons a as ih =>
    intro l' h i
    cases l' with
    | nil => unfold toLowerL at h; simp at h
    | cons b bs =>
      unfold toLowerL at h
      simp only [List.map_cons, List.cons.injEq] at h
      obtain ⟨h1, h2⟩ := h
      cases i with
      | zero => simpa using h1
      | succ n => exact ih bs h2 n

/-- `buildStep` reads the feedback only through the lowered tag. -/
theorem buildStep_fb_congr {g fb fb' : List Char} {ctx : FilterCtx} {i : Nat}
    (h : (fb.getD i ' ').toLower = (fb'.getD i ' ').toLower) :
    buildStep g fb ctx i = buildStep g fb' ctx i := by
  unfold buildStep
  rw [h]

/-- The whole constraint accumulator depends on the feedback only through its
lowercase normalization. -/
theorem buildCtx_fb_congr {g fb fb' : List Char}
    (h : toLowerL fb = toLowerL fb') :
    buildCtx g fb = buildCtx g fb' := by
  have hi := toLower_getD_congr fb fb' h
  unfold buildCtx
  rw [show List.range 5 = [0, 1, 2, 3, 4] from rfl]
  simp only [List.foldl_cons, List.foldl_nil]
  rw [buildStep_fb_congr (hi 0), buildStep_fb_congr (hi 1),
    buildStep_fb_congr (hi 2), buildStep_fb_congr (hi 3),
    buildStep_fb_congr (hi 4)]

/-- C9, counterexample -- the filter is NOT case-insensitive in the words and
the guess: the same word list and the same guess written in a different
letter case produce different surviving pools (the code lowercases only the
feedback, never the words or the guess). -/
theorem filter_words_case_cex :
    toLowerL ['A','Q','Q','Q','Q'] = toLowerL ['a','q','q','q','q'] ∧
      filter_words ['a','q','q','q','q'] ['g','r','r','r','r']
        [['a','z','z','z','z']] = [['a','z','z','z','z']] ∧
      filter_words ['A','Q','Q','Q','Q'] ['g','r','r','r','r']
        [['a','z','z','z','z']] = [] := by
  refine ⟨by decide, by decide, by decide⟩

/-- C9, amended -- only the feedback is normalized to lowercase before
comparison: the filter produces the same surviving pool for any two feedback
strings with the same lowercase normalization, while word and guess letters
are compared case-sensitively. -/
theorem filter_words_feedback_case (g : Word) (fb fb' : List Char)
    (pool : List Word) (h : toLowerL fb = toLowerL fb') :
    filter_words g fb pool = filter_words g fb' pool := by
  unfold filter_words
  rw [buildCtx_fb_congr h]

/-- Witness for amended C9: feedback `GrRgR` filters exactly like `grrgr`. -/
theorem filter_words_feedback_case_witness :
    filter_words ['c','r','a','n','e'] ['G','r','R','g','R']
        [['s','l','a','n','t'], ['c','a','b','l','e']] =
      filter_words ['c','r','a','n','e'] ['g','r','r','g','r']
        [['s','l','a','n','t'], ['c','a','b','l','e']] :=
  filter_words_feedback_case ['c','r','a','n','e'] ['G','r','R','g','R']
    ['g','r','r','g','r'] [['s','l','a','n','t'], ['c','a','b','l','e']]
    (by decide)

end Wordle
